import Mathlib

/-!
Verification development for the `pyscf.ao2mo.incore` AO→MO integral
transformation pipeline (`full`, `general`, `half_e1`, `iden_coeffs` in
`src/ao2mo/incore.py`).

The Python functions are shallowly embedded below.  Shape and control-flow
behaviour (symmetry classification, size assertion, zero-dimension
short-circuit, blocking loop, buffer shapes) is translated directly from the
Python source.  The compiled kernels from `pyscf.ao2mo._ao2mo`
(`AO2MOnr_e1incore_drv`, `AO2MOtranse1_incore_s4/s8`, `AO2MOmmm_nr_*`,
`nr_e2_`) are C code that is not part of these sources; where their behaviour
is needed it is modelled from the specification and marked as such in the
doc comment.
-/

namespace AO2MO

/-- Block size for the half-transform loop (`BLOCK = 56` in the source). -/
def BLOCK : Nat := 56

/-- Number of unordered pairs over a dimension of size `n`:
`n*(n+1)//2` in the source (`nao_pair`, `nij_pair`, `nkl_pair`). -/
def tri (n : Nat) : Nat := n * (n + 1) / 2

/-- Packed index of the unordered pair `(p, q)` with `q ≤ p`:
`p*(p+1)/2 + q` (spec section "Packed pair index"). -/
def packIdx (p q : Nat) : Nat := tri p + q

/-- Inverse of triangular packing: walks row by row.  `unpackAux t p`
decodes offset `t` assuming rows `0..p-1` have already been consumed. -/
def unpackAux (t p : Nat) : Nat × Nat :=
  if t ≤ p then (p, t) else unpackAux (t - (p + 1)) (p + 1)
termination_by t
decreasing_by omega

/-- Decode a packed triangular offset into its pair `(p, q)`, `q ≤ p`. -/
def unpack (t : Nat) : Nat × Nat := unpackAux t 0

theorem tri_succ (n : Nat) : tri (n + 1) = tri n + (n + 1) := by
  unfold tri
  have h : (n + 1) * (n + 1 + 1) = n * (n + 1) + (n + 1) * 2 := by ring
  rw [h, Nat.add_mul_div_right _ _ (by norm_num)]

theorem tri_mono {m n : Nat} (h : m ≤ n) : tri m ≤ tri n := by
  unfold tri
  exact Nat.div_le_div_right (Nat.mul_le_mul h (by omega))

theorem unpackAux_tri (n : Nat) : ∀ (a q : Nat), q ≤ a + n →
    unpackAux (tri (a + n) - tri a + q) a = (a + n, q) := by
  induction n with
  | zero =>
      intro a q hq
      rw [unpackAux]
      simp only [Nat.add_zero, Nat.sub_self, Nat.zero_add]
      rw [if_pos (by simpa using hq)]
  | succ n ih =>
      intro a q hq
      have e1 : a + (n + 1) = (a + 1) + n := by omega
      rw [e1] at hq ⊢
      have hstep : tri (a + 1) = tri a + (a + 1) := tri_succ a
      have hmono : tri (a + 1) ≤ tri ((a + 1) + n) := tri_mono (by omega)
      rw [unpackAux]
      rw [if_neg (by omega)]
      have harg : tri ((a + 1) + n) - tri a + q - (a + 1)
          = tri ((a + 1) + n) - tri (a + 1) + q := by omega
      rw [harg, ih (a + 1) q hq]

/-- Round trip: unpacking the packed index of `(p, q)` with `q ≤ p`
recovers the pair. -/
theorem unpack_packIdx {p q : Nat} (h : q ≤ p) : unpack (packIdx p q) = (p, q) := by
  have := unpackAux_tri p 0 q (by omega)
  simpa [unpack, packIdx, tri] using this

/-- Default absolute tolerance of `numpy.allclose`. -/
def atol : ℚ := 1 / 100000000

/-- Default relative tolerance of `numpy.allclose`. -/
def rtol : ℚ := 1 / 100000

/-- An orbital coefficient matrix: a dense 2D real array together with a
Python object identity (`id(...)`), which `iden_coeffs` inspects. -/
structure Mat where
  objId : Nat
  rows : Nat
  cols : Nat
  entry : Nat → Nat → ℚ

/-- Absolute value on ℚ, written so the kernel can evaluate it. -/
def absQ (x : ℚ) : ℚ := if x < 0 then -x else x

/-- Semantics of `numpy.allclose(mo1, mo2)` on two same-shaped matrices:
every entry satisfies `|a - b| <= atol + rtol*|b|`. -/
def allcloseB (m1 m2 : Mat) : Bool :=
  (List.range m1.rows).all fun i =>
    (List.range m1.cols).all fun j =>
      decide (absQ (m1.entry i j - m2.entry i j) ≤ atol + rtol * absQ (m2.entry i j))

/-- Embedding of `iden_coeffs(mo1, mo2)` (incore.py lines 248-250):
`id(mo1) == id(mo2) or (mo1.shape == mo2.shape and numpy.allclose(mo1, mo2))`. -/
def iden_coeffs (m1 m2 : Mat) : Bool :=
  (m1.objId == m2.objId) ||
    ((m1.rows == m2.rows) && (m1.cols == m2.cols) && allcloseB m1 m2)

/-- MO-pair symmetry tag passed to the second-half kernel: `'s2'` or `'s1'`. -/
inductive MoSym where
  | s1
  | s2
deriving DecidableEq, Repr

/-- First-stage kernel selected by the element count of the AO tensor:
`AO2MOtranse1_incore_s4` or `AO2MOtranse1_incore_s8`. -/
inductive Ftrans where
  | s4
  | s8
deriving DecidableEq, Repr

/-- Matrix-multiplication kernel selected from the (i,j) symmetry class:
`AO2MOmmm_nr_s2_s2`, `AO2MOmmm_nr_s2_iltj` or `AO2MOmmm_nr_s2_igtj`. -/
inductive Fmmm where
  | s2s2
  | iltj
  | igtj
deriving DecidableEq, Repr

/-- The `(blk0, blk1)` intervals of `half_e1`'s loop
`for blk0 in range(0, nao_pair, BLOCK): blk1 = min(blk0+BLOCK, nao_pair)`. -/
def blockList (naoPair : Nat) : List (Nat × Nat) :=
  (List.range ((naoPair + BLOCK - 1) / BLOCK)).map
    fun i => (i * BLOCK, min (i * BLOCK + BLOCK) naoPair)

/-- Result description of `half_e1`: the shape of the returned buffer
`eri1 = numpy.empty((nij_pair, nao_pair))`, the kernels chosen by the
function-pointer dispatch, and the blocks of the write loop. -/
structure HalfResult where
  rows : Nat
  cols : Nat
  ftrans : Ftrans
  fmmm : Fmmm
  blocks : List (Nat × Nat)
deriving Repr

/-- Errors surfaced by the pipeline.  The source's `assert` on the AO tensor
element count (incore.py line 124) is the InvalidShape error of the spec;
`valueError` is the ValueError that `numpy.hstack` raises when the two
stacked coefficient matrices disagree on the row count (incore.py lines
216-217). -/
inductive TransError where
  | invalidShape
  | valueError
deriving DecidableEq, Repr

/-- Embedding of `half_e1(eri_ao, mo_coeffs, compact)` (incore.py lines
157-246), shape/control-flow level.  `eriSize` is `eri_ao.size`.  The
function validates neither the element count nor the AO dimension: it
classifies the (i,j) pair, and in the non-identical branch builds
`numpy.hstack((mo_coeffs[0], mo_coeffs[1]))` (lines 216-217), which raises
ValueError when the two row counts differ; otherwise it dispatches on the
element count (`s4` iff `size == nao_pair**2`, else `s8` with no further
check) and fills a `(nij_pair, nao_pair)` buffer block by block. -/
def half_e1Run (eriSize : Nat) (m0 m1 : Mat) (compact : Bool) :
    Except TransError HalfResult :=
  let ijsame := compact && iden_coeffs m0 m1
  let nmoi := m0.cols
  let nmoj := m1.cols
  let nao := m0.rows
  let nao_pair := tri nao
  if compact && ijsame then
    .ok { rows := tri nmoi, cols := nao_pair,
          ftrans := if eriSize == nao_pair ^ 2 then .s4 else .s8,
          fmmm := .s2s2,
          blocks := blockList nao_pair }
  else if m0.rows = m1.rows then
    .ok { rows := nmoi * nmoj, cols := nao_pair,
          ftrans := if eriSize == nao_pair ^ 2 then .s4 else .s8,
          fmmm := if nmoi ≤ nmoj then .iltj else .igtj,
          blocks := blockList nao_pair }
  else
    .error .valueError

/-- Modelled from the spec: the Full-Transform engine `_ao2mo.nr_e2_` is a
compiled kernel absent from these sources.  Per spec §4.4 it contracts the
`kl` AO-pair axis into MO space, preserving the row count and producing
`nkl_pair` columns as determined by the symmetry class and the `klshape`
slice `(0, nmok, 0, nmok)` (s2) or `(0, nmok, nmok, nmol)` (s1). -/
def nr_e2Shape (rows : Nat) (mosym : MoSym)
    (klshape : Nat × Nat × Nat × Nat) : Nat × Nat :=
  match mosym with
  | .s2 => (rows, tri klshape.2.1)
  | .s1 => (rows, klshape.2.1 * klshape.2.2.2)

/-- Outcome of `general`: either the early zero-filled array (engines never
invoked) or the array produced by `half_e1` followed by `_ao2mo.nr_e2_`. -/
inductive GenResult where
  | zeros (rows cols : Nat)
  | engines (half : HalfResult) (rows cols : Nat)
deriving Repr

/-- Shape of a `general` outcome. -/
def resShape : GenResult → Nat × Nat
  | .zeros r c => (r, c)
  | .engines _ r c => (r, c)

/-- Embedding of `general(eri_ao, mo_coeffs, verbose, compact)` (incore.py
lines 54-155), shape/control-flow level.  `eriSize` is `eri_ao.size`.
Logging is omitted.  The final `_ao2mo.nr_e2_` call is represented by its
spec-modelled shape `nr_e2Shape`.  The `numpy.hstack` of `mo_coeffs[2]`
and `mo_coeffs[3]` at line 139 is represented by its column composition
only; the ValueError it would raise on mismatched `mo_k`/`mo_l` row counts
falls outside the data model (section 3 of the spec gives all four
matrices the common AO row dimension `nao`) and is not modelled here,
whereas the (i,j)-pair counterpart inside `half_e1` is. -/
def generalRun (eriSize : Nat) (m0 m1 m2 m3 : Mat) (compact : Bool) :
    Except TransError GenResult :=
  let ijsame := compact && iden_coeffs m0 m1
  let klsame := compact && iden_coeffs m2 m3
  let nmoi := m0.cols
  let nmoj := m1.cols
  let nmok := m2.cols
  let nmol := m3.cols
  let nao := m0.rows
  let nao_pair := tri nao
  if eriSize = nao_pair ^ 2 ∨ eriSize = tri nao_pair then
    let nij_pair := if compact && ijsame then tri nmoi else nmoi * nmoj
    let klmosym : MoSym := if compact && klsame then .s2 else .s1
    let nkl_pair := if compact && klsame then tri nmok else nmok * nmol
    let klshape : Nat × Nat × Nat × Nat :=
      if compact && klsame then (0, nmok, 0, nmok) else (0, nmok, nmok, nmol)
    if nij_pair = 0 ∨ nkl_pair = 0 then
      .ok (.zeros nij_pair nkl_pair)
    else
      match half_e1Run eriSize m0 m1 compact with
      | .error e => .error e
      | .ok h =>
          let rc := nr_e2Shape h.rows klmosym klshape
          .ok (.engines h rc.1 rc.2)
  else
    .error .invalidShape

/-- Embedding of `full(eri_ao, mo_coeff, verbose, compact)` (incore.py lines
14-51): `general` with the same coefficient object in all four slots. -/
def fullRun (eriSize : Nat) (m : Mat) (compact : Bool) :
    Except TransError GenResult :=
  generalRun eriSize m m m m compact

/-- Modelled from the spec: the arithmetic of the two-stage contraction lives
in the compiled `_ao2mo` kernels, absent from these sources.  Per spec §4.3,
§4.4 and §8 the composed transform computes
`eri_mo[i,j,k,l] = Σ_{p,q,r,s} Mi[p,i] * Mj[q,j] * ao[p,q,r,s] * Mk[r,k] * Ml[s,l]`
over an AO basis of size `nao`. -/
def transformEntry (nao : Nat) (t : Nat → Nat → Nat → Nat → ℚ)
    (Mi Mj Mk Ml : Nat → Nat → ℚ) (i j k l : Nat) : ℚ :=
  ∑ p ∈ Finset.range nao, ∑ q ∈ Finset.range nao,
    ∑ r ∈ Finset.range nao, ∑ s ∈ Finset.range nao,
      Mi p i * Mj q j * t p q r s * Mk r k * Ml s l

/-- Modelled from the spec: value-level result of `general`.  The storage
layout of each axis follows the source's classification (`compact and
iden_coeffs`, incore.py lines 114-141): a compacted axis is indexed by the
packed pair offset `p*(p+1)/2+q` with `q ≤ p`, a plain axis by the Cartesian
offset `i*nmoj + j`.  Entry values come from the spec's contraction formula
`transformEntry`. -/
def generalVal (nao : Nat) (t : Nat → Nat → Nat → Nat → ℚ)
    (m0 m1 m2 m3 : Mat) (compact : Bool) (row col : Nat) : ℚ :=
  let ijsame := compact && iden_coeffs m0 m1
  let klsame := compact && iden_coeffs m2 m3
  let ij := if compact && ijsame then unpack row else (row / m1.cols, row % m1.cols)
  let kl := if compact && klsame then unpack col else (col / m3.cols, col % m3.cols)
  transformEntry nao t m0.entry m1.entry m2.entry m3.entry ij.1 ij.2 kl.1 kl.2

/-- The identity coefficient matrix of size `nao` with object identity `n`. -/
def idMat (n nao : Nat) : Mat :=
  { objId := n, rows := nao, cols := nao,
    entry := fun p i => if p = i then 1 else 0 }

/-- Written from the spec's words (section 4.1), for comparison with the
source's `iden_coeffs`: two matrices are identical iff they are the same
object, or they have equal shapes and element-wise numerically equal
entries within tolerance. -/
def identicalSpec (m1 m2 : Mat) : Prop :=
  m1.objId = m2.objId ∨
    (m1.rows = m2.rows ∧ m1.cols = m2.cols ∧ allcloseB m1 m2 = true)

theorem bandDup (a b : Bool) : (a && (a && b)) = (a && b) := by
  cases a <;> simp

/-- Whenever the `numpy.hstack` of the non-identical branch cannot fail —
the pair is identical, or the two matrices agree on the row count —
`half_e1` succeeds, and its result is fully determined by the (i,j)
classification, the element count and the AO dimension. -/
theorem half_e1Run_eq (eriSize : Nat) (m0 m1 : Mat) (compact : Bool)
    (hs : (compact && iden_coeffs m0 m1) = true ∨ m0.rows = m1.rows) :
    half_e1Run eriSize m0 m1 compact = .ok
      { rows := if compact && iden_coeffs m0 m1 then tri m0.cols else m0.cols * m1.cols,
        cols := tri m0.rows,
        ftrans := if eriSize == tri m0.rows ^ 2 then .s4 else .s8,
        fmmm :=
          if compact && iden_coeffs m0 m1 then .s2s2
          else if m0.cols ≤ m1.cols then .iltj else .igtj,
        blocks := blockList (tri m0.rows) } := by
  unfold half_e1Run
  simp only [bandDup]
  cases hc : compact && iden_coeffs m0 m1
  · have hrows : m0.rows = m1.rows := by
      rcases hs with hs | hs
      · rw [hc] at hs
        exact absurd hs (by simp)
      · exact hs
    simp [hc, hrows]
  · simp [hc]

/-- In the non-identical branch with mismatched row counts, `half_e1` fails
with the ValueError of `numpy.hstack` (incore.py lines 216-217). -/
theorem half_e1Run_err (eriSize : Nat) (m0 m1 : Mat) (compact : Bool)
    (hc : (compact && iden_coeffs m0 m1) = false) (hrows : m0.rows ≠ m1.rows) :
    half_e1Run eriSize m0 m1 compact = .error .valueError := by
  unfold half_e1Run
  simp only [bandDup]
  simp [hc, hrows]

/-- Inversion: a successful `half_e1` run carries exactly the classified
shape, kernels and blocks. -/
theorem half_e1Run_ok_inv (eriSize : Nat) (m0 m1 : Mat) (compact : Bool)
    (h : HalfResult) (hr : half_e1Run eriSize m0 m1 compact = .ok h) :
    h = { rows := if compact && iden_coeffs m0 m1 then tri m0.cols else m0.cols * m1.cols,
          cols := tri m0.rows,
          ftrans := if eriSize == tri m0.rows ^ 2 then .s4 else .s8,
          fmmm :=
            if compact && iden_coeffs m0 m1 then .s2s2
            else if m0.cols ≤ m1.cols then .iltj else .igtj,
          blocks := blockList (tri m0.rows) } := by
  by_cases hok : (compact && iden_coeffs m0 m1) = true ∨ m0.rows = m1.rows
  · rw [half_e1Run_eq eriSize m0 m1 compact hok] at hr
    simp only [Except.ok.injEq] at hr
    exact hr.symm
  · have h1 : (compact && iden_coeffs m0 m1) = false := by
      cases hb : compact && iden_coeffs m0 m1
      · rfl
      · exact absurd (Or.inl hb) hok
    have h2 : m0.rows ≠ m1.rows := fun he => hok (Or.inr he)
    rw [half_e1Run_err eriSize m0 m1 compact h1 h2] at hr
    exact absurd hr (by simp)

/-- Shape of every successful `general` call, shared by the claim theorems. -/
theorem generalRun_shape (eriSize : Nat) (m0 m1 m2 m3 : Mat) (compact : Bool)
    (res : GenResult) (h : generalRun eriSize m0 m1 m2 m3 compact = .ok res) :
    resShape res =
      ((if compact && iden_coeffs m0 m1 then tri m0.cols else m0.cols * m1.cols),
       (if compact && iden_coeffs m2 m3 then tri m2.cols else m2.cols * m3.cols)) := by
  by_cases hv : eriSize = tri m0.rows ^ 2 ∨ eriSize = tri (tri m0.rows)
  · unfold generalRun at h
    rw [if_pos hv] at h
    simp only [bandDup] at h
    cases hij : compact && iden_coeffs m0 m1 <;>
      cases hkl : compact && iden_coeffs m2 m3 <;>
      · simp only [hij, hkl, if_true, if_false, Bool.false_eq_true, Bool.true_eq_false,
          ite_true, ite_false] at h
        split at h
        · simp only [Except.ok.injEq] at h
          subst h
          simp [resShape, hij, hkl]
        · by_cases hok : (compact && iden_coeffs m0 m1) = true ∨ m0.rows = m1.rows
          · rw [half_e1Run_eq eriSize m0 m1 compact hok] at h
            simp only [Except.ok.injEq] at h
            subst h
            simp [resShape, nr_e2Shape, hij, hkl]
          · have h1 : (compact && iden_coeffs m0 m1) = false := by
              cases hb : compact && iden_coeffs m0 m1
              · rfl
              · exact absurd (Or.inl hb) hok
            have h2 : m0.rows ≠ m1.rows := fun he => hok (Or.inr he)
            rw [half_e1Run_err eriSize m0 m1 compact h1 h2] at h
            exact absurd h (by simp)
  · unfold generalRun at h
    rw [if_neg hv] at h
    exact absurd h (by simp)

/-- Coefficient matrix with 10 columns over a 2-function AO basis,
mirroring `mo1` of the docstring scenario. -/
def mo10 : Mat := { objId := 0, rows := 2, cols := 10, entry := fun _ _ => 0 }

/-- Coefficient matrix with 8 columns (`mo2` of the docstring scenario). -/
def mo8 : Mat := { objId := 1, rows := 2, cols := 8, entry := fun _ _ => 0 }

/-- Coefficient matrix with 6 columns (`mo3` of the docstring scenario). -/
def mo6 : Mat := { objId := 2, rows := 2, cols := 6, entry := fun _ _ => 0 }

/-- Coefficient matrix with 4 columns (`mo4` of the docstring scenario). -/
def mo4 : Mat := { objId := 3, rows := 2, cols := 4, entry := fun _ _ => 0 }

/-- Concrete outcome of `general` for the `(mo10, mo8, mo6, mo4)` scenario. -/
def c1res : GenResult :=
  GenResult.engines
    { rows := 80, cols := 3, ftrans := .s4, fmmm := .igtj, blocks := blockList 3 }
    80 24

/-- C1: every result of `general` has row count `nmoi*(nmoi+1)/2` when compact
and `mo_i` is identical to `mo_j`, else `nmoi*nmoj`, and column count
`nmok*(nmok+1)/2` when compact and `mo_k` is identical to `mo_l`, else
`nmok*nmol`; in particular, coefficient widths `10,8,6,4` with compact on give
shape `(80, 24)`, `mo_k = mo_l` of width 6 gives `(80, 21)`, and
`compact=false` with `mo_k = mo_l` gives `(80, 36)`. -/
theorem c1_general_shape :
    (∀ (eriSize : Nat) (m0 m1 m2 m3 : Mat) (compact : Bool) (res : GenResult),
        generalRun eriSize m0 m1 m2 m3 compact = .ok res →
        (resShape res).1 =
          (if compact && iden_coeffs m0 m1 then tri m0.cols else m0.cols * m1.cols) ∧
        (resShape res).2 =
          (if compact && iden_coeffs m2 m3 then tri m2.cols else m2.cols * m3.cols)) ∧
    (generalRun 9 mo10 mo8 mo6 mo4 true).map resShape = .ok (80, 24) ∧
    (generalRun 9 mo10 mo8 mo6 mo6 true).map resShape = .ok (80, 21) ∧
    (generalRun 9 mo10 mo8 mo6 mo6 false).map resShape = .ok (80, 36) := by
  refine ⟨fun eriSize m0 m1 m2 m3 compact res h => ?_, rfl, rfl, rfl⟩
  have := generalRun_shape eriSize m0 m1 m2 m3 compact res h
  exact ⟨by rw [this], by rw [this]⟩

/-- Witness for C1 at the concrete docstring scenario. -/
theorem c1_general_shape_witness :
    generalRun 9 mo10 mo8 mo6 mo4 true = .ok c1res ∧
    (resShape c1res).1 =
      (if true && iden_coeffs mo10 mo8 then tri mo10.cols else mo10.cols * mo8.cols) ∧
    (resShape c1res).2 =
      (if true && iden_coeffs mo6 mo4 then tri mo6.cols else mo6.cols * mo4.cols) :=
  ⟨rfl, c1_general_shape.1 9 mo10 mo8 mo6 mo4 true c1res rfl⟩

/-- C8: `half_e1` returns a buffer of shape `(nij_pair, nao_pair)`: the row
count follows the (i,j) symmetry class and the column count is always
`nao_pair = nao*(nao+1)/2`, independent of the compact flag and of the input
tensor's 4-fold or 8-fold packing. -/
theorem c8_half_e1_shape (eriSize : Nat) (m0 m1 : Mat) (compact : Bool)
    (h : HalfResult) (hr : half_e1Run eriSize m0 m1 compact = .ok h) :
    h.rows = (if compact && iden_coeffs m0 m1 then tri m0.cols else m0.cols * m1.cols) ∧
    h.cols = tri m0.rows := by
  have he := half_e1Run_ok_inv eriSize m0 m1 compact h hr
  subst he
  exact ⟨rfl, rfl⟩

/-- Witness for C8: the `(mo10, mo8)` pair, compact on, 4-fold size 9,
and also an 8-fold size 6 giving the same `nao_pair`-wide second axis. -/
theorem c8_half_e1_shape_witness :
    (80 = (if true && iden_coeffs mo10 mo8 then tri mo10.cols else mo10.cols * mo8.cols) ∧
      (3 : Nat) = tri mo10.rows) ∧
    (80 = (if true && iden_coeffs mo10 mo8 then tri mo10.cols else mo10.cols * mo8.cols) ∧
      (3 : Nat) = tri mo10.rows) := by
  constructor
  · have := c8_half_e1_shape 9 mo10 mo8 true
      { rows := 80, cols := 3, ftrans := .s4, fmmm := .igtj, blocks := blockList 3 } rfl
    exact this
  · have := c8_half_e1_shape 6 mo10 mo8 true
      { rows := 80, cols := 3, ftrans := .s8, fmmm := .igtj, blocks := blockList 3 } rfl
    exact this

/-- C5: an AO tensor whose flattened element count is neither `nao_pair**2`
nor `nao_pair*(nao_pair+1)/2` makes `general` fail with the InvalidShape
error (the `assert` at incore.py line 124) before any result is produced. -/
theorem c5_invalid_size (eriSize : Nat) (m0 m1 m2 m3 : Mat) (compact : Bool)
    (h1 : eriSize ≠ tri m0.rows ^ 2) (h2 : eriSize ≠ tri (tri m0.rows)) :
    generalRun eriSize m0 m1 m2 m3 compact = .error .invalidShape := by
  unfold generalRun
  rw [if_neg (by simp [h1, h2])]

/-- Witness for C5: size 7 over a 2-function AO basis (`nao_pair = 3`,
valid sizes are 9 and 6). -/
theorem c5_invalid_size_witness :
    (7 : Nat) ≠ tri mo10.rows ^ 2 ∧ (7 : Nat) ≠ tri (tri mo10.rows) ∧
    generalRun 7 mo10 mo8 mo6 mo4 true = .error .invalidShape :=
  ⟨by decide, by decide,
    c5_invalid_size 7 mo10 mo8 mo6 mo4 true (by decide) (by decide)⟩

/-- C7: when either computed pair count is zero, `general` returns the
zero-filled `(nij_pair, nkl_pair)` array at once; neither the half-transform
nor the second-half engine is invoked and no error is raised. -/
theorem c7_zero_pair (eriSize : Nat) (m0 m1 m2 m3 : Mat) (compact : Bool)
    (hv : eriSize = tri m0.rows ^ 2 ∨ eriSize = tri (tri m0.rows))
    (hz : (if compact && iden_coeffs m0 m1 then tri m0.cols else m0.cols * m1.cols) = 0 ∨
          (if compact && iden_coeffs m2 m3 then tri m2.cols else m2.cols * m3.cols) = 0) :
    generalRun eriSize m0 m1 m2 m3 compact =
      .ok (.zeros
        (if compact && iden_coeffs m0 m1 then tri m0.cols else m0.cols * m1.cols)
        (if compact && iden_coeffs m2 m3 then tri m2.cols else m2.cols * m3.cols)) := by
  unfold generalRun
  rw [if_pos hv]
  simp only [bandDup]
  rw [if_pos hz]

/-- Zero-width coefficient matrix used by the C7 witness. -/
def mo0w : Mat := { objId := 9, rows := 2, cols := 0, entry := fun _ _ => 0 }

/-- Witness for C7: a zero-width (k,l) orbital set. -/
theorem c7_zero_pair_witness :
    generalRun 9 mo10 mo8 mo0w mo0w true =
      .ok (.zeros
        (if true && iden_coeffs mo10 mo8 then tri mo10.cols else mo10.cols * mo8.cols)
        (if true && iden_coeffs mo0w mo0w then tri mo0w.cols else mo0w.cols * mo0w.cols)) :=
  c7_zero_pair 9 mo10 mo8 mo0w mo0w true (Or.inl rfl) (Or.inr (by decide))

/-- C10: `full` hands the same matrix object to all four orbital slots, so
the pair-identity check succeeds by object identity alone — for every valid
tensor size and every coefficient matrix the result has the compacted shape
`(nmo*(nmo+1)/2, nmo*(nmo+1)/2)`, whatever the entries. -/
theorem c10_full_compact_shape (eriSize : Nat) (m : Mat)
    (hv : eriSize = tri m.rows ^ 2 ∨ eriSize = tri (tri m.rows)) :
    iden_coeffs m m = true ∧
    (fullRun eriSize m true).map resShape = .ok (tri m.cols, tri m.cols) := by
  have hid : iden_coeffs m m = true := by
    simp [iden_coeffs]
  refine ⟨hid, ?_⟩
  unfold fullRun generalRun
  rw [if_pos hv]
  simp only [bandDup, hid, Bool.true_and, if_true]
  by_cases hz : tri m.cols = 0
  · rw [if_pos (Or.inl hz)]
    simp [Except.map, resShape, hz]
  · rw [if_neg (by simp [hz])]
    rw [half_e1Run_eq eriSize m m true (Or.inl (by simp [hid]))]
    simp [Except.map, hid, resShape, nr_e2Shape]

/-- Witness for C10: identity-free shape compaction on a matrix with
arbitrary entries (width 10 over a 2-function basis, 8-fold size 6). -/
theorem c10_full_compact_shape_witness :
    iden_coeffs mo10 mo10 = true ∧
    (fullRun 6 mo10 true).map resShape = .ok (tri mo10.cols, tri mo10.cols) :=
  c10_full_compact_shape 6 mo10 (Or.inr rfl)

/-- Copy of `mo6` with a different object identity but identical data. -/
def mo6c : Mat := { objId := 4, rows := 2, cols := 6, entry := fun _ _ => 0 }

/-- C4: a pair is classified Compacted (`s2`) iff the compact flag is on and
the two matrices are identical — same object identity, or equal shapes with
entries numerically equal within tolerance; the same object twice is
classified exactly like two distinct numerically equal objects, and the
(i,j) and (k,l) decisions are independent: changing one pair never changes
the other pair's axis of the result. -/
theorem c4_classification :
    (∀ (compact : Bool) (m1 m2 : Mat),
        (compact && iden_coeffs m1 m2) = true ↔
          (compact = true ∧ identicalSpec m1 m2)) ∧
    (∀ m : Mat, iden_coeffs m m = true) ∧
    (∀ m1 m2 : Mat, m1.rows = m2.rows → m1.cols = m2.cols →
        allcloseB m1 m2 = true → iden_coeffs m1 m2 = iden_coeffs m1 m1) ∧
    (∀ (eriSize : Nat) (mA mB mC mD mC' mD' : Mat) (compact : Bool)
        (r r' : GenResult),
        generalRun eriSize mA mB mC mD compact = .ok r →
        generalRun eriSize mA mB mC' mD' compact = .ok r' →
        (resShape r).1 = (resShape r').1) ∧
    (∀ (eriSize : Nat) (mA mB mA' mB' mC mD : Mat) (compact : Bool)
        (r r' : GenResult),
        generalRun eriSize mA mB mC mD compact = .ok r →
        generalRun eriSize mA' mB' mC mD compact = .ok r' →
        (resShape r).2 = (resShape r').2) := by
  refine ⟨fun compact m1 m2 => ?_, fun m => by simp [iden_coeffs],
    fun m1 m2 h1 h2 h3 => by simp [iden_coeffs, h1, h2, h3],
    fun eriSize mA mB mC mD mC' mD' compact r r' h h' => ?_,
    fun eriSize mA mB mA' mB' mC mD compact r r' h h' => ?_⟩
  · simp only [Bool.and_eq_true, iden_coeffs, Bool.or_eq_true, beq_iff_eq,
      identicalSpec]
    tauto
  · rw [generalRun_shape eriSize mA mB mC mD compact r h,
      generalRun_shape eriSize mA mB mC' mD' compact r' h']
  · rw [generalRun_shape eriSize mA mB mC mD compact r h,
      generalRun_shape eriSize mA' mB' mC mD compact r' h']

/-- Witness for C4: the same object twice and two distinct objects holding
equal data receive the same classification. -/
theorem c4_classification_witness :
    iden_coeffs mo6 mo6c = iden_coeffs mo6 mo6 ∧
    ((true && iden_coeffs mo6 mo6c) = true ↔ (true = true ∧ identicalSpec mo6 mo6c)) :=
  ⟨c4_classification.2.2.1 mo6 mo6c rfl rfl
      (by simp [allcloseB, mo6, mo6c, absQ, atol, rtol]),
   c4_classification.1 true mo6 mo6c⟩

/-- Coefficient matrix whose inner dimension (5 rows) disagrees with
`mo10`'s AO dimension (2 rows). -/
def moBadRows : Mat := { objId := 5, rows := 5, cols := 8, entry := fun _ _ => 0 }

/-- Counterexample to C6: with element count 7 (neither `3**2` nor
`3*4/2` for the 2-function AO basis of `mo10`) and the same coefficient
matrix twice — so the non-identical `hstack` branch is never reached —
`half_e1` does not fail: it returns a `(55, 3)` buffer, silently
dispatching to the 8-fold kernel.  And at a mismatched inner dimension the
failure that does occur is the ValueError of `numpy.hstack`, not an
InvalidShape check. -/
theorem c6_counterexample :
    (7 : Nat) ≠ tri mo10.rows ^ 2 ∧ (7 : Nat) ≠ tri (tri mo10.rows) ∧
    half_e1Run 7 mo10 mo10 true =
      .ok { rows := 55, cols := 3, ftrans := .s8, fmmm := .s2s2,
            blocks := blockList 3 } ∧
    moBadRows.rows ≠ mo10.rows ∧
    half_e1Run 7 mo10 moBadRows true = .error .valueError :=
  ⟨by decide, by decide, rfl, by decide, rfl⟩

/-- C6 (amended): `half_e1` never checks the element count and never
compares the coefficient inner dimensions against the tensor: whenever the
(i,j) pair is identical or the two matrices agree on the row count, it
returns a `(nij_pair, nao_pair)` buffer for every element count — even one
matching neither packed form — treating the tensor as 4-fold exactly when
the count equals `nao_pair**2` and as 8-fold otherwise; the only failure it
can raise is the ValueError of `numpy.hstack` when the non-identical branch
stacks matrices with differing row counts, and the element-count check
lives only in `general`. -/
theorem c6_half_e1_no_validation :
    (∀ (eriSize : Nat) (m0 m1 : Mat) (compact : Bool),
        (compact && iden_coeffs m0 m1) = true ∨ m0.rows = m1.rows →
        half_e1Run eriSize m0 m1 compact = .ok
          { rows := if compact && iden_coeffs m0 m1 then tri m0.cols
                    else m0.cols * m1.cols,
            cols := tri m0.rows,
            ftrans := if eriSize == tri m0.rows ^ 2 then .s4 else .s8,
            fmmm :=
              if compact && iden_coeffs m0 m1 then .s2s2
              else if m0.cols ≤ m1.cols then .iltj else .igtj,
            blocks := blockList (tri m0.rows) }) ∧
    (∀ (eriSize : Nat) (m0 m1 : Mat) (compact : Bool),
        (compact && iden_coeffs m0 m1) = false → m0.rows ≠ m1.rows →
        half_e1Run eriSize m0 m1 compact = .error .valueError) :=
  ⟨half_e1Run_eq, half_e1Run_err⟩

/-- Witness for the amended C6: the silent success at invalid size 7 with
an identical pair, and the hstack ValueError at mismatched row counts. -/
theorem c6_half_e1_no_validation_witness :
    half_e1Run 7 mo10 mo10 true =
      .ok { rows := 55, cols := 3, ftrans := .s8, fmmm := .s2s2,
            blocks := blockList 3 } ∧
    half_e1Run 7 mo10 moBadRows true = .error .valueError :=
  ⟨c6_half_e1_no_validation.1 7 mo10 mo10 true (Or.inl rfl),
   c6_half_e1_no_validation.2 7 mo10 moBadRows true rfl (by decide)⟩

theorem countP_range_eq_ite (n k : Nat) :
    (List.range n).countP (fun i => decide (i = k)) = if k < n then 1 else 0 := by
  induction n with
  | zero => simp
  | succ n ih =>
      rw [List.range_succ, List.countP_append, ih]
      have hsing : List.countP (fun i => decide (i = k)) [n] =
          if n = k then 1 else 0 := by
        simp [List.countP_cons]
      rw [hsing]
      by_cases h1 : k < n
      · have hk : k < n + 1 := by omega
        have hne : n ≠ k := by omega
        rw [if_pos h1, if_neg hne, if_pos hk]
      · by_cases h2 : n = k
        · have hk : k < n + 1 := by omega
          rw [if_neg h1, if_pos h2, if_pos hk]
        · have hk : ¬ k < n + 1 := by omega
          rw [if_neg h1, if_neg h2, if_neg hk]

theorem blockList_countP (n c : Nat) (hc : c < n) :
    (blockList n).countP (fun b => decide (b.1 ≤ c ∧ c < b.2)) = 1 := by
  unfold blockList
  rw [List.countP_map]
  have hd := Nat.div_add_mod c BLOCK
  have hm : c % BLOCK < BLOCK := Nat.mod_lt _ (by norm_num [BLOCK])
  have hd2 := Nat.div_add_mod (n + BLOCK - 1) BLOCK
  have hm2 : (n + BLOCK - 1) % BLOCK < BLOCK := Nat.mod_lt _ (by norm_num [BLOCK])
  have hcong : ∀ i ∈ List.range ((n + BLOCK - 1) / BLOCK),
      (((fun b => decide (b.1 ≤ c ∧ c < b.2)) ∘
        (fun i => (i * BLOCK, min (i * BLOCK + BLOCK) n))) i = true ↔
      (fun i => decide (i = c / BLOCK)) i = true) := by
    intro i _
    simp only [Function.comp_apply, decide_eq_true_eq]
    unfold BLOCK at *
    constructor
    · rintro ⟨hx, hy⟩
      omega
    · intro h
      subst h
      omega
  rw [List.countP_congr hcong, countP_range_eq_ite]
  rw [if_pos ?hlt]
  case hlt =>
    unfold BLOCK at *
    omega

theorem blockList_chain (n : Nat) :
    List.Chain' (fun a b : Nat × Nat => a.2 = b.1) (blockList n) := by
  unfold blockList
  rw [List.chain'_map]
  cases hE : (n + BLOCK - 1) / BLOCK with
  | zero => simp
  | succ d =>
      rw [List.chain'_range_succ]
      intro m hm
      have h1 := Nat.div_add_mod (n + BLOCK - 1) BLOCK
      have h2 : (n + BLOCK - 1) % BLOCK < BLOCK := Nat.mod_lt _ (by norm_num [BLOCK])
      rw [hE] at h1
      show min (m * BLOCK + BLOCK) n = (m + 1) * BLOCK
      unfold BLOCK at *
      omega

theorem blockList_ends (n : Nat) (hn : 0 < n) :
    (blockList n).head?.map Prod.fst = some 0 ∧
    (blockList n).getLast?.map Prod.snd = some n := by
  have h1 := Nat.div_add_mod (n + BLOCK - 1) BLOCK
  have h2 : (n + BLOCK - 1) % BLOCK < BLOCK := Nat.mod_lt _ (by norm_num [BLOCK])
  cases hE : (n + BLOCK - 1) / BLOCK with
  | zero =>
      exfalso
      rw [hE] at h1
      unfold BLOCK at *
      omega
  | succ d =>
      rw [hE] at h1
      constructor
      · unfold blockList
        rw [hE, List.range_succ_eq_map]
        simp
      · unfold blockList
        rw [hE, List.range_succ, List.map_append, List.map_singleton,
          List.getLast?_concat]
        simp only [Option.map_some']
        have hmin : min (d * BLOCK + BLOCK) n = n := by
          unfold BLOCK at *
          omega
        rw [hmin]

/-- C9: the blocked loop of `half_e1` runs over intervals that partition
`[0, nao_pair)` contiguously and exhaustively, so each output column slice
is written exactly once: every column index lies in exactly one block,
consecutive blocks abut, and the blocks start at 0 and end at `nao_pair`. -/
theorem c9_block_partition :
    (∀ (eriSize : Nat) (m0 m1 : Mat) (compact : Bool) (h : HalfResult),
        half_e1Run eriSize m0 m1 compact = .ok h →
        h.blocks = blockList (tri m0.rows)) ∧
    (∀ n c : Nat, c < n →
        (blockList n).countP (fun b => decide (b.1 ≤ c ∧ c < b.2)) = 1) ∧
    (∀ n : Nat, List.Chain' (fun a b : Nat × Nat => a.2 = b.1) (blockList n)) ∧
    (∀ n : Nat, 0 < n → (blockList n).head?.map Prod.fst = some 0 ∧
        (blockList n).getLast?.map Prod.snd = some n) := by
  refine ⟨fun eriSize m0 m1 compact h hr => ?_, blockList_countP,
    blockList_chain, blockList_ends⟩
  have he := half_e1Run_ok_inv eriSize m0 m1 compact h hr
  subst he
  rfl

/-- Witness for C9: `nao_pair = 60` (two blocks, `(0,56)` and `(56,60)`),
column 57 lies in exactly one block, and ends are 0 and 60. -/
theorem c9_block_partition_witness :
    (blockList 60).countP (fun b => decide (b.1 ≤ 57 ∧ 57 < b.2)) = 1 ∧
    (blockList 60).head?.map Prod.fst = some 0 ∧
    (blockList 60).getLast?.map Prod.snd = some 60 :=
  ⟨c9_block_partition.2.1 60 57 (by decide),
   c9_block_partition.2.2.2 60 (by decide)⟩

theorem transformEntry_swap12 (nao : Nat) (t : Nat → Nat → Nat → Nat → ℚ)
    (M : Nat → Nat → ℚ) (hsym : ∀ p q r s, t p q r s = t q p r s)
    (i j k l : Nat) :
    transformEntry nao t M M M M i j k l = transformEntry nao t M M M M j i k l := by
  unfold transformEntry
  rw [Finset.sum_comm]
  apply Finset.sum_congr rfl
  intro a _
  apply Finset.sum_congr rfl
  intro b _
  apply Finset.sum_congr rfl
  intro r _
  apply Finset.sum_congr rfl
  intro s _
  rw [hsym a b r s]
  ring

theorem transformEntry_swap34 (nao : Nat) (t : Nat → Nat → Nat → Nat → ℚ)
    (M : Nat → Nat → ℚ) (hsym : ∀ p q r s, t p q r s = t p q s r)
    (i j k l : Nat) :
    transformEntry nao t M M M M i j k l = transformEntry nao t M M M M i j l k := by
  unfold transformEntry
  apply Finset.sum_congr rfl
  intro p _
  apply Finset.sum_congr rfl
  intro q _
  rw [Finset.sum_comm]
  apply Finset.sum_congr rfl
  intro c _
  apply Finset.sum_congr rfl
  intro d _
  rw [hsym p q c d]
  ring

theorem sum4_delta (n : Nat) (g : Nat → Nat → Nat → Nat → ℚ) (p q r s : Nat)
    (hp : p < n) (hq : q < n) (hr : r < n) (hs : s < n) :
    (∑ a ∈ Finset.range n, ∑ b ∈ Finset.range n,
      ∑ c ∈ Finset.range n, ∑ d ∈ Finset.range n,
        (if a = p then (1 : ℚ) else 0) * (if b = q then (1 : ℚ) else 0) *
          g a b c d * (if c = r then (1 : ℚ) else 0) *
          (if d = s then (1 : ℚ) else 0)) = g p q r s := by
  rw [Finset.sum_eq_single_of_mem p (Finset.mem_range.mpr hp)
    (fun x _ hx => by simp [hx])]
  rw [Finset.sum_eq_single_of_mem q (Finset.mem_range.mpr hq)
    (fun x _ hx => by simp [hx])]
  rw [Finset.sum_eq_single_of_mem r (Finset.mem_range.mpr hr)
    (fun x _ hx => by simp [hx])]
  rw [Finset.sum_eq_single_of_mem s (Finset.mem_range.mpr hs)
    (fun x _ hx => by simp [hx])]
  simp

/-- C2: for a symmetric AO tensor and one coefficient matrix `M` in all four
slots, the compacted result of `general` expanded back to the full
`(nmo,nmo,nmo,nmo)` tensor equals the non-compact result entry for entry:
the packed entry at `(max i j, min i j) × (max k l, min k l)` is exactly the
plain entry at `(i,j) × (k,l)`, so compaction changes storage only. -/
theorem c2_compact_vs_full (nao : Nat) (t : Nat → Nat → Nat → Nat → ℚ) (m : Mat)
    (hpq : ∀ p q r s, t p q r s = t q p r s)
    (hrs : ∀ p q r s, t p q r s = t p q s r)
    (i j k l : Nat) (hj : j < m.cols) (hl : l < m.cols) :
    generalVal nao t m m m m true
      (packIdx (max i j) (min i j)) (packIdx (max k l) (min k l)) =
    generalVal nao t m m m m false (i * m.cols + j) (k * m.cols + l) := by
  have hid : iden_coeffs m m = true := by simp [iden_coeffs]
  have hpos : 0 < m.cols := by omega
  have hdiv1 : (i * m.cols + j) / m.cols = i := by
    rw [Nat.mul_comm, Nat.mul_add_div hpos, Nat.div_eq_of_lt hj, Nat.add_zero]
  have hmod1 : (i * m.cols + j) % m.cols = j := by
    rw [Nat.mul_comm, Nat.mul_add_mod]
    exact Nat.mod_eq_of_lt hj
  have hdiv2 : (k * m.cols + l) / m.cols = k := by
    rw [Nat.mul_comm, Nat.mul_add_div hpos, Nat.div_eq_of_lt hl, Nat.add_zero]
  have hmod2 : (k * m.cols + l) % m.cols = l := by
    rw [Nat.mul_comm, Nat.mul_add_mod]
    exact Nat.mod_eq_of_lt hl
  unfold generalVal
  simp only [hid, Bool.true_and, Bool.false_and, Bool.and_true, Bool.and_false,
    if_true, if_false, Bool.and_self, ite_true, ite_false,
    Bool.false_eq_true, Bool.true_eq_false]
  rw [unpack_packIdx (min_le_max (a := i) (b := j)),
    unpack_packIdx (min_le_max (a := k) (b := l))]
  rw [hdiv1, hmod1, hdiv2, hmod2]
  dsimp only
  rcases le_total j i with hij | hij
  · rw [max_eq_left hij, min_eq_right hij]
    rcases le_total l k with hkl | hkl
    · rw [max_eq_left hkl, min_eq_right hkl]
    · rw [max_eq_right hkl, min_eq_left hkl]
      exact transformEntry_swap34 nao t m.entry hrs i j l k
  · rw [max_eq_right hij, min_eq_left hij]
    rcases le_total l k with hkl | hkl
    · rw [max_eq_left hkl, min_eq_right hkl]
      exact transformEntry_swap12 nao t m.entry hpq j i k l
    · rw [max_eq_right hkl, min_eq_left hkl]
      rw [transformEntry_swap12 nao t m.entry hpq j i l k]
      exact transformEntry_swap34 nao t m.entry hrs i j l k

/-- Symmetric test tensor for the C2 witness. -/
def tSym : Nat → Nat → Nat → Nat → ℚ := fun _ _ _ _ => 2

/-- One-column coefficient matrix over a one-function AO basis. -/
def mOne : Mat := { objId := 7, rows := 1, cols := 1, entry := fun _ _ => 1 }

/-- Witness for C2 on a one-dimensional concrete instance. -/
theorem c2_compact_vs_full_witness :
    (0 : Nat) < mOne.cols ∧
    generalVal 1 tSym mOne mOne mOne mOne true
        (packIdx (max 0 0) (min 0 0)) (packIdx (max 0 0) (min 0 0)) =
      generalVal 1 tSym mOne mOne mOne mOne false
        (0 * mOne.cols + 0) (0 * mOne.cols + 0) :=
  ⟨by decide,
   c2_compact_vs_full 1 tSym mOne (fun _ _ _ _ => rfl) (fun _ _ _ _ => rfl)
     0 0 0 0 (by decide) (by decide)⟩

/-- C3: with the identity matrix of size `nao` in all four slots (as `full`
passes it), every stored entry of the result equals the corresponding entry
of the input AO tensor: position `(packIdx p q, packIdx r s)` holds
`ao p q r s`, i.e. `general(ao, (I,I,I,I))` reproduces `ao` up to the
packing layout. -/
theorem c3_identity_transform (nao oid : Nat) (t : Nat → Nat → Nat → Nat → ℚ)
    (p q r s : Nat) (hqp : q ≤ p) (hsr : s ≤ r)
    (hp : p < nao) (hq : q < nao) (hr : r < nao) (hs : s < nao) :
    generalVal nao t (idMat oid nao) (idMat oid nao) (idMat oid nao) (idMat oid nao)
      true (packIdx p q) (packIdx r s) = t p q r s := by
  have hid : iden_coeffs (idMat oid nao) (idMat oid nao) = true := by
    simp [iden_coeffs]
  unfold generalVal
  simp only [hid, Bool.true_and, Bool.and_self, if_true, ite_true]
  rw [unpack_packIdx hqp, unpack_packIdx hsr]
  exact sum4_delta nao t p q r s hp hq hr hs

/-- Test tensor with distinguishable entries for the C3 witness. -/
def tAny : Nat → Nat → Nat → Nat → ℚ :=
  fun p q r s => (p : ℚ) + q + r + s + 5

/-- Witness for C3 on a one-dimensional concrete instance. -/
theorem c3_identity_transform_witness :
    generalVal 1 tAny (idMat 0 1) (idMat 0 1) (idMat 0 1) (idMat 0 1) true
      (packIdx 0 0) (packIdx 0 0) = tAny 0 0 0 0 :=
  c3_identity_transform 1 0 tAny 0 0 0 0 (Nat.le_refl 0) (Nat.le_refl 0)
    (by decide) (by decide) (by decide) (by decide)

end AO2MO
